import Mathlib

/-!
Shallow embedding of `src/EventEmitter.js` (EventEmitter v3.0.0).

Modelling decisions, all taken from the source and from ECMAScript semantics
of the constructs it uses:

* An emitter's `_listeners` object maps event-type names to JavaScript
  arrays.  Arrays are mutable objects captured by reference
  (`possibleListeners` in `eachListener`, line 72), so the model gives each
  array an identity: a `heap : Nat → Option Arr` of array cells plus a
  `byType : String → Option Nat` map from type name to cell reference.
  `delete this._listeners[type]` removes only the `byType` entry; the cell
  stays (the orphaned array stays alive in JS for whoever captured it).
  The per-type `warned` expando property set on the array (line 121) is the
  `warned` field of the cell.
* Handler functions are named by `HId := Nat`; removal compares handlers by
  reference (`===`, line 160), i.e. by `HId` equality here.  A handler's
  body is a list of re-entrant calls into the same emitter (`Act`), looked
  up in an environment `Env : HId → List Act`; `Act.throw` models a handler
  that raises.
* JS control flow that can raise or recurse is interpreted by the fueled
  function `exec`; `Res.oot` (out of fuel) is a model artifact, `Res.exn`
  models an exception unwinding out of the API call.  Every invocation of a
  listener is recorded in a `trace`, and every `console.warn` (line 118) in
  `warns`.
* `emit`'s second parameter `args` is a JS value (`ArgsV`): the public API
  passes an array or omits it, but the internal call on line 109,
  `this.emit('newListener', type, listener, scope, once)`, binds the *type
  string* to `args` (the remaining actual arguments are dropped, since
  `emit` is declared `function(type, args)`).  `Event.fire` (line 48) runs
  `this.listener.apply(this.scope || this, args || [])`: `undefined` and
  the empty string are falsy and become `[]`, while a non-empty primitive
  string reaches `Function.prototype.apply`, which per ES5 15.3.4.3 /
  ES2015 CreateListFromArrayLike throws a TypeError because its argArray is
  not an object.  `argsToList` encodes exactly this.
* The omitted `once` argument of a three-argument `on(type, listener,
  scope)` call (`on` is the same function as `addListener`, line 136) is
  modelled as `false`: the code only ever tests its truthiness (line 51),
  and `undefined` and `false` agree on truthiness.
* `eachListener` (lines 64-88) is higher order; its two instantiations are
  embedded separately with the same cursor discipline: the pure splicing
  scan of `removeListener` (`rlScan`) and the dispatch loop of `emit`
  (`Job.loop` in `exec`).  The callback result handling (lines 77-82) is:
  `false` → `i -= 1` before the `i += 1` of the `for` (net: stay), anything
  else but `true` → advance, `true` → break (never returned by either
  callback in the source, so no break branch appears).
-/

abbrev HId := Nat

/-- JavaScript values that flow through listener argument lists. -/
inductive Value where
  | str (s : String)
  | fn (h : HId)
  | obj (n : Nat)
  | bool (b : Bool)
  | undefV
deriving DecidableEq

/-- The `Event` record of lines 32-39: type, listener, scope, once flag.
The `instance` back-reference is implicit (one emitter per world). -/
structure Event where
  type : String
  listener : HId
  scope : Option Nat
  once : Bool
deriving DecidableEq

/-- One JS array cell: the listener array plus its `warned` expando
property (absent ↦ `false`). -/
structure Arr where
  events : List Event
  warned : Bool
deriving DecidableEq

/-- The emitter: `_listeners` split into a by-name table of array
references and a heap of array cells, plus `_maxListeners`. -/
structure Emitter where
  byType : String → Option Nat
  heap : Nat → Option Arr
  nextRef : Nat
  maxL : Nat

def bset (f : String → Option Nat) (t : String) (v : Option Nat) : String → Option Nat :=
  fun t' => if t' = t then v else f t'

def hset (f : Nat → Option Arr) (r : Nat) (a : Arr) : Nat → Option Arr :=
  fun r' => if r' = r then some a else f r'

def hget (f : Nat → Option Arr) (r : Nat) : Arr :=
  (f r).getD ⟨[], false⟩

/-- A fresh emitter (constructor, lines 16-20): no listeners, limit 10. -/
def initEm : Emitter := ⟨fun _ => none, fun _ => none, 0, 10⟩

/-- Re-entrant emitter calls a handler body may perform, plus `throw`. -/
inductive Act where
  | on (t : String) (h : HId) (sc : Option Nat)
  | once (t : String) (h : HId) (sc : Option Nat)
  | removeListener (t : String) (h : HId)
  | removeAllListeners (t : Option String)
  | emit (t : String) (args : List Value)
  | setMaxListeners (n : Nat)
  | throw

abbrev Env := HId → List Act

/-- Observable world: emitter state, listener-invocation trace, warnings
(`console.warn` events as (type, listener count)). -/
structure Wst where
  em : Emitter
  trace : List (HId × List Value)
  warns : List (String × Nat)

/-- Result of running embedded JS: normal completion, an exception
unwinding (JS state at the throw point), or out of model fuel. -/
inductive Res where
  | ok (w : Wst)
  | exn (w : Wst)
  | oot

/-- The value `emit` receives as `args`: the public API passes an array or
nothing (`undefined`); the internal `newListener` call passes the type
string. -/
inductive ArgsV where
  | undefV
  | arr (l : List Value)
  | strv (s : String)

/-- `args || []` followed by `Function.prototype.apply` (line 48): falsy
`args` (undefined, empty string) become `[]`; an array is spread; a
non-empty primitive string makes `apply` throw a TypeError (`none`). -/
def argsToList : ArgsV → Option (List Value)
  | .undefV => some []
  | .arr l => some l
  | .strv s => if s = "" then some [] else none

/-- `scope` as it appears in the `newListener` argument list (line 109):
an omitted scope is `undefined`. -/
def scVal : Option Nat → Value
  | some n => .obj n
  | none => .undefV

/-- The `eachListener` scan of `removeListener` (lines 158-163): splice
every reference-equal match.  The callback returns `undefined`, never
`false`, so the `for` increment always advances the cursor — the element
that shifted into the spliced slot is not examined.  The cursor gains one
on the distance to the end of the array every step, so `es.length` steps
always suffice; the first argument is that step bound. -/
def rlScan (h : HId) : Nat → List Event → Nat → List Event
  | 0, es, _ => es
  | g+1, es, i =>
    if hi : i < es.length then
      if (es.get ⟨i, hi⟩).listener = h then rlScan h g (es.eraseIdx i) (i+1)
      else rlScan h g es (i+1)
    else es

/-- First half of `removeListener` (lines 158-163): run the splicing scan
over the type's array, in place; no-op when the type has no entry
(`eachListener`'s `hasOwnProperty` guard, line 71).  Splicing does not
touch the array's `warned` property. -/
def rlPhase1 (t : String) (h : HId) (em : Emitter) : Emitter :=
  match em.byType t with
  | none => em
  | some r =>
    let arr := hget em.heap r
    { em with heap := hset em.heap r ⟨rlScan h arr.events.length arr.events 0, arr.warned⟩ }

/-- Second half of `removeListener` (lines 165-168): delete the type's
entry if its array is now empty (the re-read of `this._listeners[type]`
with the `&&` guard). -/
def rlPhase2 (t : String) (em : Emitter) : Emitter :=
  match em.byType t with
  | none => em
  | some r =>
    if (hget em.heap r).events = [] then { em with byType := bset em.byType t none }
    else em

/-- `removeListener` (lines 157-172): scan-splice, then delete the type
entry if its array is now empty. -/
def removeListenerF (t : String) (h : HId) (em : Emitter) : Emitter :=
  rlPhase2 t (rlPhase1 t h em)

/-- `removeAllListeners` (lines 180-192).  JS truthiness of the `type`
argument: an omitted or empty-string type falls through to the
clear-everything branch. -/
def removeAllF (ot : Option String) (em : Emitter) : Emitter :=
  match ot with
  | some t =>
    if t ≠ "" then
      if (em.byType t).isSome then { em with byType := bset em.byType t none } else em
    else { em with byType := fun _ => none }
  | none => { em with byType := fun _ => none }

/-- `listeners` (lines 200-207): the type's array, or `false` (here
`none`) when the type has no entry. -/
def listenersF (em : Emitter) (t : String) : Option (List Event) :=
  match em.byType t with
  | some r => some (hget em.heap r).events
  | none => none

/-- `setMaxListeners` (lines 233-238). -/
def setMaxListenersF (n : Nat) (em : Emitter) : Emitter :=
  { em with maxL := n }

/-- Lines 100-106 of `addListener`: create the array if absent (a fresh
array has no `warned` property), then push the new `Event`. -/
def addPush (t : String) (h : HId) (sc : Option Nat) (o : Bool) (em : Emitter) : Emitter :=
  match em.byType t with
  | some r =>
    let arr := hget em.heap r
    { em with heap := hset em.heap r ⟨arr.events ++ [⟨t, h, sc, o⟩], arr.warned⟩ }
  | none =>
    let em1 := { em with byType := bset em.byType t (some em.nextRef),
                         heap := hset em.heap em.nextRef ⟨[], false⟩,
                         nextRef := em.nextRef + 1 }
    let arr := hget em1.heap em.nextRef
    { em1 with heap := hset em1.heap em.nextRef ⟨arr.events ++ [⟨t, h, sc, o⟩], arr.warned⟩ }

/-- Work items of the interpreter: a handler body / act sequence, an
`addListener` call, an `emit` call, and `emit`'s `eachListener` loop over
a captured array reference. -/
inductive Job where
  | acts (l : List Act)
  | addL (t : String) (h : HId) (sc : Option Nat) (o : Bool)
  | emitJ (t : String) (a : ArgsV)
  | loop (r : Nat) (a : ArgsV) (i : Nat)

/-- Fueled interpreter for the re-entrant parts of the source.
`acts`: run a body act by act, stopping at the first exception.
`addL` = `addListener` (lines 99-126): push, emit `newListener` with the
type *string* as `args`, then the max-listener check — which re-reads
`this._listeners[type]` and so throws a TypeError (`exn`) if a
`newListener` handler deleted the entry (reading `.warned` of undefined),
and is skipped entirely when `_maxListeners` is `0`.
`emitJ` = `emit` (lines 216-223): no entry, no-op; otherwise loop over the
captured array reference.
`loop` = `eachListener` applied to `Event.fire` (lines 74-83 and 47-55):
read the live cell, fire the listener at the cursor (TypeError before the
call if `apply` rejects `args`; otherwise record the invocation and run the
body), then — only when the fired event was a once event, i.e. `fire`
returned `false` — remove it by handler reference and keep the cursor,
else advance.  A throwing listener unwinds before the once-removal. -/
def exec (env : Env) : Nat → Job → Wst → Res
  | 0, _, _ => .oot
  | _+1, .acts [], w => .ok w
  | fuel+1, .acts (a :: rest), w =>
    let r :=
      match a with
      | .on t h sc => exec env fuel (.addL t h sc false) w
      | .once t h sc => exec env fuel (.addL t h sc true) w
      | .removeListener t h => .ok { w with em := removeListenerF t h w.em }
      | .removeAllListeners ot => .ok { w with em := removeAllF ot w.em }
      | .emit t args => exec env fuel (.emitJ t (.arr args)) w
      | .setMaxListeners n => .ok { w with em := setMaxListenersF n w.em }
      | .throw => .exn w
    match r with
    | .ok w' => exec env fuel (.acts rest) w'
    | r' => r'
  | fuel+1, .addL t h sc o, w =>
    match exec env fuel (.emitJ "newListener" (.strv t)) { w with em := addPush t h sc o w.em } with
    | .ok w1 =>
      if w1.em.maxL ≠ 0 then
        match w1.em.byType t with
        | none => .exn w1
        | some r2 =>
          let arr2 := hget w1.em.heap r2
          if arr2.warned = false ∧ w1.em.maxL < arr2.events.length then
            .ok { w1 with
                  em := { w1.em with heap := hset w1.em.heap r2 ⟨arr2.events, true⟩ },
                  warns := w1.warns ++ [(t, arr2.events.length)] }
          else .ok w1
      else .ok w1
    | r' => r'
  | fuel+1, .emitJ t a, w =>
    match w.em.byType t with
    | none => .ok w
    | some r => exec env fuel (.loop r a 0) w
  | fuel+1, .loop r a i, w =>
    let arr := hget w.em.heap r
    if hi : i < arr.events.length then
      let ev := arr.events.get ⟨i, hi⟩
      match argsToList a with
      | none => .exn w
      | some l =>
        match exec env fuel (.acts (env ev.listener)) { w with trace := w.trace ++ [(ev.listener, l)] } with
        | .ok w2 =>
          if ev.once then
            exec env fuel (.loop r a i) { w2 with em := removeListenerF ev.type ev.listener w2.em }
          else exec env fuel (.loop r a (i+1)) w2
        | r' => r'
    else .ok w

/-- Run a sequence of top-level API calls. -/
def runActs (env : Env) (fuel : Nat) (l : List Act) (w : Wst) : Res :=
  exec env fuel (.acts l) w

def w0 : Wst := ⟨initEm, [], []⟩

/-- Trace of the result, when it completed or threw. -/
def rTrace : Res → Option (List (HId × List Value))
  | .ok w => some w.trace
  | .exn w => some w.trace
  | .oot => none

/-- Warnings of the result, when it completed or threw. -/
def rWarns : Res → Option (List (String × Nat))
  | .ok w => some w.warns
  | .exn w => some w.warns
  | .oot => none

def rOk : Res → Bool
  | .ok _ => true
  | _ => false

def rExn : Res → Bool
  | .exn _ => true
  | _ => false

/-- `listeners t` queried on the result state. -/
def rListeners (t : String) : Res → Option (Option (List Event))
  | .ok w => some (listenersF w.em t)
  | .exn w => some (listenersF w.em t)
  | .oot => none

/-- Number of invocations of handler `h` in a trace. -/
def countH (h : HId) (tr : List (HId × List Value)) : Nat :=
  (tr.filter (fun p => p.1 = h)).length

/-- A caller catching the exception of a failed call: continue from the JS
state at the throw point. -/
def rescue : Res → Res
  | .exn w => .ok w
  | r => r

/-- Sequencing further API calls after a result. -/
def andThen (env : Env) (fuel : Nat) (l : List Act) : Res → Res
  | .ok w => runActs env fuel l w
  | r => r

/-- Handler bodies for the concrete scenarios: handler 0 removes itself
from type `"e"` when invoked, handler 5 throws, all others are inert. -/
def envA : Env := fun h =>
  match h with
  | 0 => [.removeListener "e" 0]
  | 5 => [.throw]
  | _ => []

/-- An emitter with one inert listener (handler 9) subscribed to
`"newListener"`. -/
def emNL : Emitter :=
  { byType := fun t => if t = "newListener" then some 0 else none,
    heap := fun r => if r = 0 then some ⟨[⟨"newListener", 9, none, false⟩], false⟩ else none,
    nextRef := 1, maxL := 10 }

def wNL : Wst := ⟨emNL, [], []⟩

/-- `once("e", h5)` where handler 5 throws, then `emit("e")`. -/
def c3run : Res := runActs envA 40 [.once "e" 5 none, .emit "e" []] w0

/-- Register the same handler twice in a row on `"e"`, then remove it. -/
def c4runA : Res := runActs envA 40 [.on "e" 2 none, .on "e" 2 none, .removeListener "e" 2] w0

/-- Register handler 2, then 1, then 2 again on `"e"`, then remove 2. -/
def c4runB : Res :=
  runActs envA 40 [.on "e" 2 none, .on "e" 1 none, .on "e" 2 none, .removeListener "e" 2] w0

/-- `on("e", h2)` and `once("e", h2)` for the same handler, then `emit`. -/
def c10runA : Res := runActs envA 40 [.on "e" 2 none, .once "e" 2 none, .emit "e" []] w0

/-- Same as `c10runA` with a second `emit("e")` appended. -/
def c10runB : Res :=
  runActs envA 40 [.on "e" 2 none, .once "e" 2 none, .emit "e" [], .emit "e" []] w0

/-- `n` registrations of distinct handlers on type `"x"`. -/
def regs (n : Nat) : List Act := (List.range n).map (fun i => .on "x" i none)

/-- Registrations of the given handlers on type `"x"`. -/
def regActs (hs : List HId) : List Act := hs.map (fun h => Act.on "x" h none)

/-- The events `regActs hs` appends to `"x"`'s sequence. -/
def onEvents (hs : List HId) : List Event := hs.map (fun h => ⟨"x", h, none, false⟩)

/-- The current listener array contents for a type, `[]` when absent. -/
def currEvents (em : Emitter) (t : String) : List Event :=
  (listenersF em t).getD []

/-- Structural well-formedness of the reference model: every table entry
points to a live heap cell, cells at or beyond `nextRef` are unallocated,
and no two types share an array (JS object properties hold distinct
arrays: arrays are only ever created fresh, one per type). -/
def Wf (em : Emitter) : Prop :=
  (∀ t r, em.byType t = some r → (em.heap r).isSome) ∧
  (∀ r, em.nextRef ≤ r → em.heap r = none) ∧
  (∀ t1 t2 r, em.byType t1 = some r → em.byType t2 = some r → t1 = t2)

/-- The spec invariant of claim C9: no type key maps to an empty
sequence. -/
def NoEmpty (em : Emitter) : Prop :=
  ∀ t r, em.byType t = some r → (hget em.heap r).events ≠ []

def EmInv (em : Emitter) : Prop := Wf em ∧ NoEmpty em

/-- `EmInv` holds of the state a run ended in, whether it completed or
threw; vacuous for the out-of-fuel model artifact. -/
def ResInv : Res → Prop
  | .ok w => EmInv w.em
  | .exn w => EmInv w.em
  | .oot => True

/-- `NoEmpty` holds of the state a run ended in. -/
def ResNoEmpty : Res → Prop
  | .ok w => NoEmpty w.em
  | .exn w => NoEmpty w.em
  | .oot => True

/-- The run ended (normally or by throwing) with the given warning list. -/
def ResWarnsEq (r : Res) (ws : List (String × Nat)) : Prop :=
  ∀ w, r = .ok w ∨ r = .exn w → w.warns = ws

/-- Listeners `[h0, h1]` on `"e"` where h0 removes itself; then `emit`. -/
def c1run : Res := runActs envA 40 [.on "e" 0 none, .on "e" 1 none, .emit "e" []] w0

/-- Register inert handler 3 under the type `"newListener"`. -/
def c2runA : Res := runActs envA 40 [.on "newListener" 3 none] w0

/-- One-shot registration of handler 3 under `"newListener"`, with scope. -/
def c2runB : Res := runActs envA 40 [.once "newListener" 3 (some 7)] w0

/-- Plain registration on a fresh emitter. -/
def c2runC : Res := runActs envA 40 [.on "x" 4 none] w0

/-- Registration of handler 7 (scope 3) on `"x"`, then `emit("x")`, on the
emitter that already has a `"newListener"` listener. -/
def c5run : Res := runActs envA 40 [.on "x" 7 (some 3), .emit "x" []] wNL

/-- `once("e", h6)` then two `emit("e")` calls. -/
def c6run : Res := runActs envA 40 [.once "e" 6 none, .emit "e" [], .emit "e" []] w0

theorem hset_self (f : Nat → Option Arr) (r : Nat) (a : Arr) : hset f r a r = some a := by
  simp [hset]

theorem hset_other (f : Nat → Option Arr) (r : Nat) (a : Arr) (r' : Nat) (h : r' ≠ r) :
    hset f r a r' = f r' := by
  simp [hset, h]

theorem bset_self (f : String → Option Nat) (t : String) (v : Option Nat) : bset f t v t = v := by
  simp [bset]

theorem bset_other (f : String → Option Nat) (t : String) (v : Option Nat) (t' : String)
    (h : t' ≠ t) : bset f t v t' = f t' := by
  simp [bset, h]

theorem exec_zero (env : Env) (job : Job) (w : Wst) : exec env 0 job w = .oot := rfl

theorem exec_acts_nil (env : Env) (fuel : Nat) (w : Wst) :
    exec env (fuel+1) (.acts []) w = .ok w := rfl

theorem exec_acts_cons (env : Env) (fuel : Nat) (a : Act) (rest : List Act) (w : Wst) :
    exec env (fuel+1) (.acts (a :: rest)) w =
      match
        (match a with
         | .on t h sc => exec env fuel (.addL t h sc false) w
         | .once t h sc => exec env fuel (.addL t h sc true) w
         | .removeListener t h => .ok { w with em := removeListenerF t h w.em }
         | .removeAllListeners ot => .ok { w with em := removeAllF ot w.em }
         | .emit t args => exec env fuel (.emitJ t (.arr args)) w
         | .setMaxListeners n => .ok { w with em := setMaxListenersF n w.em }
         | .throw => .exn w) with
      | .ok w' => exec env fuel (.acts rest) w'
      | r' => r' := rfl

theorem exec_addL (env : Env) (fuel : Nat) (t : String) (h : HId) (sc : Option Nat) (o : Bool)
    (w : Wst) :
    exec env (fuel+1) (.addL t h sc o) w =
      match exec env fuel (.emitJ "newListener" (.strv t)) { w with em := addPush t h sc o w.em } with
      | .ok w1 =>
        if w1.em.maxL ≠ 0 then
          match w1.em.byType t with
          | none => .exn w1
          | some r2 =>
            let arr2 := hget w1.em.heap r2
            if arr2.warned = false ∧ w1.em.maxL < arr2.events.length then
              .ok { w1 with
                    em := { w1.em with heap := hset w1.em.heap r2 ⟨arr2.events, true⟩ },
                    warns := w1.warns ++ [(t, arr2.events.length)] }
            else .ok w1
        else .ok w1
      | r' => r' := rfl

theorem exec_emitJ (env : Env) (fuel : Nat) (t : String) (a : ArgsV) (w : Wst) :
    exec env (fuel+1) (.emitJ t a) w =
      match w.em.byType t with
      | none => .ok w
      | some r => exec env fuel (.loop r a 0) w := rfl

theorem exec_loop (env : Env) (fuel : Nat) (r : Nat) (a : ArgsV) (i : Nat) (w : Wst) :
    exec env (fuel+1) (.loop r a i) w =
      (if hi : i < (hget w.em.heap r).events.length then
        let ev := (hget w.em.heap r).events.get ⟨i, hi⟩
        match argsToList a with
        | none => .exn w
        | some l =>
          match exec env fuel (.acts (env ev.listener)) { w with trace := w.trace ++ [(ev.listener, l)] } with
          | .ok w2 =>
            if ev.once then
              exec env fuel (.loop r a i) { w2 with em := removeListenerF ev.type ev.listener w2.em }
            else exec env fuel (.loop r a (i+1)) w2
          | r' => r'
      else .ok w) := rfl

/-- C1 counterexample: with listeners `[h0, h1]` on `"e"` where h0's body
calls `removeListener("e", h0)`, the emit does not invoke both exactly
once — h1 is never invoked (the splice shifts h1 into the current slot and
the cursor still advances, because `removeListener`'s callback never
returns `false` to the iterator). -/
theorem C1_counterexample :
    ¬ (countH 0 ((rTrace c1run).getD []) = 1 ∧ countH 1 ((rTrace c1run).getD []) = 1) := by
  decide

/-- C1 amended: with listeners `[h0, h1]` on `"e"` where h0 removes itself
via `removeListener` during the emit, h0 fires exactly once but the
dispatch skips h1 entirely: the emit completes normally with trace
`[h0]`, and h1 — though still registered afterwards — was never
invoked. -/
theorem C1_theorem :
    rTrace c1run = some [(0, [])] ∧
    rListeners "e" c1run = some (some [⟨"e", 1, none, false⟩]) ∧
    rOk c1run = true := by
  decide

/-- C2: a registration's own `newListener` emission never invokes the
listener being registered.  Registering under `"newListener"` itself (via
`on` or `once`) inserts the subscription but invokes nobody — the internal
`emit('newListener', type, ...)` call binds the type string to `emit`'s
`args` parameter, so `Function.prototype.apply` throws a TypeError before
any listener runs; a registration on a fresh emitter invokes nobody
either. -/
theorem C2_theorem :
    rTrace c2runA = some [] ∧
    rListeners "newListener" c2runA = some (some [⟨"newListener", 3, none, false⟩]) ∧
    rExn c2runA = true ∧
    rTrace c2runB = some [] ∧
    rListeners "newListener" c2runB = some (some [⟨"newListener", 3, some 7, true⟩]) ∧
    rTrace c2runC = some [] ∧
    rOk c2runC = true := by
  decide

/-- C3 counterexample: `once("e", h5)` with a throwing h5, then
`emit("e")`: the subscription is NOT removed before the exception
propagates (the removal on line 52 runs only after a normal return of
`apply`), and a later `emit("e")` invokes h5 again — two invocations in
total across the failed emit and the retry. -/
theorem C3_counterexample :
    ¬ (rListeners "e" c3run = some none) ∧
    countH 5 ((rTrace (andThen envA 40 [.emit "e" []] (rescue c3run))).getD []) = 2 := by
  decide

/-- C3 amended: when a one-shot handler throws, the exception surfaces out
of `emit` with the subscription still in the type's sequence (removal
happens only after a normal return), so a caller that catches and emits
again gets the handler invoked — and throwing — a second time. -/
theorem C3_theorem :
    rExn c3run = true ∧
    rListeners "e" c3run = some (some [⟨"e", 5, none, true⟩]) ∧
    rTrace (andThen envA 40 [.emit "e" []] (rescue c3run)) = some [(5, []), (5, [])] ∧
    rExn (andThen envA 40 [.emit "e" []] (rescue c3run)) = true := by
  decide

/-- C4 counterexample: with `"e"`'s sequence holding two consecutive
subscriptions of the same handler 2, `removeListener("e", 2)` does not
remove every match — one subscription survives, so the entry is not
deleted. -/
theorem C4_counterexample : ¬ (rListeners "e" c4runA = some none) := by
  decide

/-- C4 amended: `removeListener` splices every match it examines, but
after each splice the cursor still advances, skipping the element that
shifted into the spliced slot; of two adjacent duplicates only the first
is removed, while non-adjacent matches (here at positions 0 and 2) are
both removed. -/
theorem C4_theorem :
    rListeners "e" c4runA = some (some [⟨"e", 2, none, false⟩]) ∧
    rListeners "e" c4runB = some (some [⟨"e", 1, none, false⟩]) := by
  decide

/-- C5, code evaluated at the failing input: with handler 9 subscribed to
`"newListener"`, `on("x", h7, scope 3)` throws a TypeError — the internal
`emit('newListener', type, listener, scope, once)` call binds the type
string to `emit`'s array parameter `args`, and `apply` rejects it — so the
`"newListener"` listener never receives `("x", fn, scope, false)` and h7
is never invoked (the whole trace is empty). -/
theorem C5_theorem :
    rExn c5run = true ∧ rTrace c5run = some [] := by
  decide

/-- C6: `once("e", h6)` followed by two `emit("e")` calls invokes h6
exactly once: the first emit fires it and removes the subscription (the
emptied entry is deleted), the second emit is a no-op. -/
theorem C6_theorem :
    rTrace c6run = some [(6, [])] ∧
    rListeners "e" c6run = some none ∧
    rOk c6run = true := by
  decide

/-- C8: `listeners` returns the absent sentinel (`none`, JS `false`)
exactly for types with no entry, and the live event sequence for types
with one; concretely, an unregistered type, and a type whose last listener
was removed (entry deleted), both give the sentinel — never an empty
sequence. -/
theorem C8_theorem :
    (∀ em t, em.byType t = none → listenersF em t = none) ∧
    (∀ em t r, em.byType t = some r → listenersF em t = some (hget em.heap r).events) ∧
    listenersF initEm "u" = none ∧
    rListeners "a" (runActs envA 40 [.on "a" 8 none] w0) = some (some [⟨"a", 8, none, false⟩]) ∧
    rListeners "a" (runActs envA 40 [.on "a" 8 none, .removeListener "a" 8] w0) = some none := by
  refine ⟨fun em t hb => ?_, fun em t r hb => ?_, by decide, by decide, by decide⟩
  · simp [listenersF, hb]
  · simp [listenersF, hb]

/-- C8 witness: the general clauses applied at concrete inputs — the fresh
emitter has no `"u"` entry, and `emNL`'s `"newListener"` entry is its live
one-event sequence. -/
theorem C8_witness :
    listenersF initEm "u" = none ∧
    listenersF emNL "newListener" = some [⟨"newListener", 9, none, false⟩] :=
  ⟨C8_theorem.1 initEm "u" rfl, C8_theorem.2.1 emNL "newListener" 0 rfl⟩

/-- C10 counterexample: handler 2 registered persistently and as a
one-shot on `"e"`; firing the one-shot does not remove every subscription
with handler 2 — the one-shot's own record survives its self-removal scan,
so the entry is not emptied. -/
theorem C10_counterexample : ¬ (rListeners "e" c10runA = some none) := by
  decide

/-- C10 amended: the one-shot's self-removal is indeed by handler
reference (`removeListener(this.type, this.listener)`), and it removes the
persistent subscription registered ahead of the one-shot — but the scan's
cursor skips the element after each splice, so the one-shot's own record
survives and fires again on the next emit (three invocations over two
emits), only then removing itself. -/
theorem C10_theorem :
    rListeners "e" c10runA = some (some [⟨"e", 2, none, true⟩]) ∧
    rTrace c10runB = some [(2, []), (2, []), (2, [])] ∧
    rListeners "e" c10runB = some none := by
  decide

theorem hget_hset_self (f : Nat → Option Arr) (r : Nat) (a : Arr) : hget (hset f r a) r = a := by
  simp [hget, hset]

theorem hget_hset_other (f : Nat → Option Arr) (r : Nat) (a : Arr) (r' : Nat) (h : r' ≠ r) :
    hget (hset f r a) r' = hget f r' := by
  simp [hget, hset, h]

/-- `addPush` leaves `_maxListeners` and every other type's entry alone,
and appends exactly the new event to the target type's (possibly fresh)
array. -/
theorem addPush_props (t : String) (h : HId) (sc : Option Nat) (o : Bool) (em : Emitter) :
    (addPush t h sc o em).maxL = em.maxL ∧
    (∀ t', t' ≠ t → (addPush t h sc o em).byType t' = em.byType t') ∧
    currEvents (addPush t h sc o em) t = currEvents em t ++ [⟨t, h, sc, o⟩] := by
  unfold addPush
  cases hb : em.byType t with
  | some r =>
    refine ⟨rfl, fun t' _ => rfl, ?_⟩
    simp [currEvents, listenersF, hb, hget_hset_self]
  | none =>
    refine ⟨rfl, fun t' ht' => bset_other _ _ _ _ ht', ?_⟩
    simp [currEvents, listenersF, hb, bset_self, hget_hset_self]

/-- A registration on a type other than `"newListener"`, in a state with
`_maxListeners = 0` and no `"newListener"` entry, completes normally
(given fuel), warns nothing, appends its event, and touches no other
type. -/
theorem addL_unlimited (env : Env) (fuel : Nat) (t : String) (h : HId) (sc : Option Nat)
    (o : Bool) (w : Wst) (hm : w.em.maxL = 0) (hn : w.em.byType "newListener" = none)
    (ht : t ≠ "newListener") :
    exec env (fuel+1) (.addL t h sc o) w = .oot ∨
    ∃ w', exec env (fuel+1) (.addL t h sc o) w = .ok w' ∧
      w'.em.maxL = 0 ∧ w'.em.byType "newListener" = none ∧ w'.warns = w.warns ∧
      currEvents w'.em t = currEvents w.em t ++ [⟨t, h, sc, o⟩] ∧
      (∀ t', t' ≠ t → w'.em.byType t' = w.em.byType t') := by
  obtain ⟨hp1, hp2, hp3⟩ := addPush_props t h sc o w.em
  rw [exec_addL]
  cases fuel with
  | zero => exact Or.inl rfl
  | succ f =>
    rw [exec_emitJ]
    have hnl : (addPush t h sc o w.em).byType "newListener" = none := by
      rw [hp2 "newListener" (fun hc => ht hc.symm)]; exact hn
    rw [hnl]
    have hml : (addPush t h sc o w.em).maxL = 0 := by rw [hp1]; exact hm
    refine Or.inr ⟨{ w with em := addPush t h sc o w.em }, ?_, hml, hnl, rfl, hp3,
      fun t' ht' => hp2 t' ht'⟩
    simp [hml]

/-- Any number of registrations on `"x"` from a state with
`_maxListeners = 0` and no `"newListener"` entry: no warning is ever
produced, no registration is rejected (each appends its event), and the
run never throws. -/
theorem regs_unlimited (env : Env) : ∀ (fuel : Nat) (hs : List HId) (w : Wst),
    w.em.maxL = 0 → w.em.byType "newListener" = none →
    (runActs env fuel (regActs hs) w = .oot ∨
     ∃ w', runActs env fuel (regActs hs) w = .ok w' ∧ w'.warns = w.warns ∧
       currEvents w'.em "x" = currEvents w.em "x" ++ onEvents hs) := by
  intro fuel
  induction fuel with
  | zero => intro hs w _ _; exact Or.inl rfl
  | succ f ih =>
    intro hs w hm hn
    cases hs with
    | nil =>
      refine Or.inr ⟨w, rfl, rfl, ?_⟩
      simp [onEvents]
    | cons h hs' =>
      have hred : runActs env (f+1) (regActs (h :: hs')) w =
          (match exec env f (.addL "x" h none false) w with
           | .ok w' => exec env f (.acts (regActs hs')) w'
           | r' => r') := rfl
      rw [hred]
      cases f with
      | zero => exact Or.inl rfl
      | succ g =>
        rcases addL_unlimited env g "x" h none false w hm hn (by decide) with h1 | ⟨w1, he, hm1, hn1, hw1, hc1, _⟩
        · rw [h1]; exact Or.inl rfl
        · rw [he]
          rcases ih hs' w1 hm1 hn1 with h2 | ⟨w2, he2, hw2, hc2⟩
          · exact Or.inl h2
          · refine Or.inr ⟨w2, he2, hw2.trans hw1, ?_⟩
            rw [hc2, hc1]
            simp [onEvents]

/-- C7: with the default limit 10, eleven registrations on one type warn
exactly once, at the eleventh (listener count 11); a twelfth warns nothing
more, completes normally, and all twelve listeners are registered.  After
`setMaxListeners(0)`, no warning is ever produced no matter how many
listeners are registered, every registration still appends its
subscription, and the run never throws. -/
theorem C7_theorem :
    (rWarns (runActs envA 80 (regs 10) w0) = some [] ∧
     rWarns (runActs envA 80 (regs 11) w0) = some [("x", 11)] ∧
     rWarns (runActs envA 80 (regs 12) w0) = some [("x", 11)] ∧
     rOk (runActs envA 80 (regs 12) w0) = true ∧
     rListeners "x" (runActs envA 80 (regs 12) w0) = some (some (onEvents (List.range 12)))) ∧
    ∀ (env : Env) (fuel : Nat) (hs : List HId),
      ResWarnsEq (runActs env fuel (Act.setMaxListeners 0 :: regActs hs) w0) [] ∧
      (∀ w', runActs env fuel (Act.setMaxListeners 0 :: regActs hs) w0 = .ok w' →
        currEvents w'.em "x" = onEvents hs) := by
  refine ⟨⟨by decide, by decide, by decide, by decide, by decide⟩, ?_⟩
  intro env fuel hs
  cases fuel with
  | zero =>
    constructor
    · intro w h; rcases h with h | h <;> exact Res.noConfusion h
    · intro w' h; exact Res.noConfusion h
  | succ f =>
    have hstep : runActs env (f+1) (Act.setMaxListeners 0 :: regActs hs) w0 =
        exec env f (.acts (regActs hs)) ⟨setMaxListenersF 0 w0.em, [], []⟩ := rfl
    rcases regs_unlimited env f hs ⟨setMaxListenersF 0 w0.em, [], []⟩ rfl rfl with h1 | ⟨w', he, hw, hc⟩
    · rw [show runActs env f (regActs hs) ⟨setMaxListenersF 0 w0.em, [], []⟩ =
          exec env f (.acts (regActs hs)) ⟨setMaxListenersF 0 w0.em, [], []⟩ from rfl] at h1
      rw [hstep, h1]
      constructor
      · intro w h; rcases h with h | h <;> exact Res.noConfusion h
      · intro w' h; exact Res.noConfusion h
    · rw [show runActs env f (regActs hs) ⟨setMaxListenersF 0 w0.em, [], []⟩ =
          exec env f (.acts (regActs hs)) ⟨setMaxListenersF 0 w0.em, [], []⟩ from rfl] at he
      rw [hstep, he]
      constructor
      · intro w h
        rcases h with h | h
        · cases h; exact hw
        · exact Res.noConfusion h
      · intro w'' h
        cases h
        rw [hc]
        rfl

/-- C7 witness: the unlimited clause applied at a concrete fuel and
handler list. -/
theorem C7_witness :
    ResWarnsEq (runActs envA 9 (Act.setMaxListeners 0 :: regActs [0, 1]) w0) [] :=
  (C7_theorem.2 envA 9 [0, 1]).1

theorem mkE_byType (b : String → Option Nat) (hp : Nat → Option Arr) (n m : Nat) :
    (Emitter.mk b hp n m).byType = b := rfl

theorem mkE_heap (b : String → Option Nat) (hp : Nat → Option Arr) (n m : Nat) :
    (Emitter.mk b hp n m).heap = hp := rfl

theorem mkE_nextRef (b : String → Option Nat) (hp : Nat → Option Arr) (n m : Nat) :
    (Emitter.mk b hp n m).nextRef = n := rfl

theorem mkE_maxL (b : String → Option Nat) (hp : Nat → Option Arr) (n m : Nat) :
    (Emitter.mk b hp n m).maxL = m := rfl

/-- The splicing scan preserves well-formedness, changes no table entry,
and leaves the array of every other type untouched. -/
theorem rlPhase1_props (t : String) (h : HId) (em : Emitter) (hw : Wf em) :
    Wf (rlPhase1 t h em) ∧ (rlPhase1 t h em).byType = em.byType ∧
    (∀ t' r', em.byType t' = some r' → t' ≠ t →
      hget (rlPhase1 t h em).heap r' = hget em.heap r') := by
  obtain ⟨a1, a2, a3⟩ := hw
  unfold rlPhase1
  cases hb : em.byType t with
  | none => exact ⟨⟨a1, a2, a3⟩, rfl, fun _ _ _ _ => rfl⟩
  | some r =>
    dsimp only [EmInv, Wf, NoEmpty, mkE_byType, mkE_heap, mkE_nextRef, mkE_maxL]
    have hrs : (em.heap r).isSome := a1 t r hb
    refine ⟨⟨?_, ?_, a3⟩, rfl, ?_⟩
    · intro t' r' hb'
      by_cases hr : r' = r
      · subst hr; rw [hset_self]; rfl
      · rw [hset_other _ _ _ _ hr]; exact a1 t' r' hb'
    · intro r' hge
      by_cases hr : r' = r
      · subst hr; rw [a2 r' hge] at hrs; simp at hrs
      · rw [hset_other _ _ _ _ hr]; exact a2 r' hge
    · intro t' r' hb' ht'
      have hr : r' ≠ r := by
        intro hc; subst hc
        exact ht' (a3 t' t r' hb' hb)
      exact hget_hset_other _ _ _ _ hr

/-- The deletion phase restores the no-empty-sequence invariant provided
every type other than `t` already satisfies it. -/
theorem inv_rlPhase2 (t : String) (em : Emitter) (hw : Wf em)
    (hne : ∀ t' r, em.byType t' = some r → t' ≠ t → (hget em.heap r).events ≠ []) :
    EmInv (rlPhase2 t em) := by
  obtain ⟨a1, a2, a3⟩ := hw
  unfold rlPhase2
  cases hb : em.byType t with
  | none =>
    refine ⟨⟨a1, a2, a3⟩, fun t' r' hb' => ?_⟩
    by_cases ht' : t' = t
    · subst ht'; rw [hb] at hb'; exact Option.noConfusion hb'
    · exact hne t' r' hb' ht'
  | some r =>
    dsimp only [EmInv, Wf, NoEmpty, mkE_byType, mkE_heap, mkE_nextRef, mkE_maxL]
    by_cases hz : (hget em.heap r).events = []
    · rw [if_pos hz]
      dsimp only [mkE_byType, mkE_heap, mkE_nextRef, mkE_maxL]
      refine ⟨⟨?_, a2, ?_⟩, ?_⟩
      · intro t' r' hb'
        by_cases ht' : t' = t
        · subst ht'; rw [bset_self] at hb'; exact Option.noConfusion hb'
        · rw [bset_other _ _ _ _ ht'] at hb'; exact a1 t' r' hb'
      · intro t1 t2 r' h1 h2
        by_cases ht1 : t1 = t
        · subst ht1; rw [bset_self] at h1; exact Option.noConfusion h1
        · by_cases ht2 : t2 = t
          · subst ht2; rw [bset_self] at h2; exact Option.noConfusion h2
          · rw [bset_other _ _ _ _ ht1] at h1; rw [bset_other _ _ _ _ ht2] at h2
            exact a3 t1 t2 r' h1 h2
      · intro t' r' hb'
        by_cases ht' : t' = t
        · subst ht'; rw [bset_self] at hb'; exact Option.noConfusion hb'
        · rw [bset_other _ _ _ _ ht'] at hb'; exact hne t' r' hb' ht'
    · rw [if_neg hz]
      refine ⟨⟨a1, a2, a3⟩, fun t' r' hb' => ?_⟩
      by_cases ht' : t' = t
      · subst ht'
        rw [hb] at hb'
        injection hb' with hrr
        subst hrr; exact hz
      · exact hne t' r' hb' ht'

/-- `removeListener` preserves the invariant: the scan may empty the
type's array, but then the deletion phase removes the entry, and by
well-formedness no other type shares that array. -/
theorem inv_removeListenerF (t : String) (h : HId) (em : Emitter) (hi : EmInv em) :
    EmInv (removeListenerF t h em) := by
  obtain ⟨hw, ne⟩ := hi
  obtain ⟨hw1, hbeq, hpres⟩ := rlPhase1_props t h em hw
  refine inv_rlPhase2 t (rlPhase1 t h em) hw1 ?_
  intro t' r' hb' ht'
  rw [hbeq] at hb'
  rw [hpres t' r' hb' ht']
  exact ne t' r' hb'

/-- `removeAllListeners` preserves the invariant: it only deletes table
entries. -/
theorem inv_removeAllF (ot : Option String) (em : Emitter) (hi : EmInv em) :
    EmInv (removeAllF ot em) := by
  obtain ⟨⟨a1, a2, a3⟩, ne⟩ := hi
  have hclear : EmInv { em with byType := fun _ => none } :=
    ⟨⟨fun t r hb => Option.noConfusion hb, a2, fun t1 t2 r h1 _ => Option.noConfusion h1⟩,
      fun t r hb => Option.noConfusion hb⟩
  unfold removeAllF
  cases ot with
  | none => exact hclear
  | some t =>
    dsimp only [EmInv, Wf, NoEmpty, mkE_byType, mkE_heap, mkE_nextRef, mkE_maxL]
    by_cases hts : t ≠ ""
    · rw [if_pos hts]
      by_cases hsome : (em.byType t).isSome
      · rw [if_pos hsome]
        dsimp only [mkE_byType, mkE_heap, mkE_nextRef, mkE_maxL]
        refine ⟨⟨?_, a2, ?_⟩, ?_⟩
        · intro t' r' hb'
          by_cases ht' : t' = t
          · subst ht'; rw [bset_self] at hb'; exact Option.noConfusion hb'
          · rw [bset_other _ _ _ _ ht'] at hb'; exact a1 t' r' hb'
        · intro t1 t2 r' h1 h2
          by_cases ht1 : t1 = t
          · subst ht1; rw [bset_self] at h1; exact Option.noConfusion h1
          · by_cases ht2 : t2 = t
            · subst ht2; rw [bset_self] at h2; exact Option.noConfusion h2
            · rw [bset_other _ _ _ _ ht1] at h1; rw [bset_other _ _ _ _ ht2] at h2
              exact a3 t1 t2 r' h1 h2
        · intro t' r' hb'
          by_cases ht' : t' = t
          · subst ht'; rw [bset_self] at hb'; exact Option.noConfusion hb'
          · rw [bset_other _ _ _ _ ht'] at hb'; exact ne t' r' hb'
      · rw [if_neg hsome]; exact ⟨⟨a1, a2, a3⟩, ne⟩
    · rw [if_neg hts]; exact hclear

/-- The push step of `addListener` preserves the invariant: pushing to an
existing array keeps it non-empty, and a fresh array gets its event before
the table entry becomes observable (one Lean step, lines 100-106). -/
theorem inv_addPush (t : String) (h : HId) (sc : Option Nat) (o : Bool) (em : Emitter)
    (hi : EmInv em) : EmInv (addPush t h sc o em) := by
  obtain ⟨⟨a1, a2, a3⟩, ne⟩ := hi
  unfold addPush
  cases hb : em.byType t with
  | some r =>
    dsimp only [EmInv, Wf, NoEmpty, mkE_byType, mkE_heap, mkE_nextRef, mkE_maxL]
    have hrs : (em.heap r).isSome := a1 t r hb
    refine ⟨⟨?_, ?_, a3⟩, ?_⟩
    · intro t' r' hb'
      by_cases hr : r' = r
      · subst hr; rw [hset_self]; rfl
      · rw [hset_other _ _ _ _ hr]; exact a1 t' r' hb'
    · intro r' hge
      by_cases hr : r' = r
      · subst hr; rw [a2 r' hge] at hrs; simp at hrs
      · rw [hset_other _ _ _ _ hr]; exact a2 r' hge
    · intro t' r' hb'
      by_cases hr : r' = r
      · subst hr; rw [hget_hset_self]; simp
      · rw [hget_hset_other _ _ _ _ hr]; exact ne t' r' hb'
  | none =>
    dsimp only [EmInv, Wf, NoEmpty, mkE_byType, mkE_heap, mkE_nextRef, mkE_maxL]
    have hnone : em.heap em.nextRef = none := a2 em.nextRef (Nat.le_refl _)
    refine ⟨⟨?_, ?_, ?_⟩, ?_⟩
    · intro t' r' hb'
      by_cases ht' : t' = t
      · subst ht'
        rw [bset_self] at hb'
        injection hb' with hrr
        subst hrr
        rw [hset_self]; rfl
      · rw [bset_other _ _ _ _ ht'] at hb'
        have hrs : (em.heap r').isSome := a1 t' r' hb'
        have hr : r' ≠ em.nextRef := by
          intro hc; subst hc; rw [hnone] at hrs; simp at hrs
        rw [hset_other _ _ _ _ hr, hset_other _ _ _ _ hr]
        exact hrs
    · intro r' hge
      have hr : r' ≠ em.nextRef := by omega
      rw [hset_other _ _ _ _ hr, hset_other _ _ _ _ hr]
      exact a2 r' (by omega)
    · intro t1 t2 r' h1 h2
      by_cases ht1 : t1 = t
      · by_cases ht2 : t2 = t
        · rw [ht1, ht2]
        · rw [ht1, bset_self] at h1
          rw [bset_other _ _ _ _ ht2] at h2
          injection h1 with hrr
          subst hrr
          have hrs : (em.heap em.nextRef).isSome := a1 t2 _ h2
          rw [hnone] at hrs; simp at hrs
      · rw [bset_other _ _ _ _ ht1] at h1
        by_cases ht2 : t2 = t
        · rw [ht2, bset_self] at h2
          injection h2 with hrr
          subst hrr
          have hrs : (em.heap em.nextRef).isSome := a1 t1 _ h1
          rw [hnone] at hrs; simp at hrs
        · rw [bset_other _ _ _ _ ht2] at h2
          exact a3 t1 t2 r' h1 h2
    · intro t' r' hb'
      by_cases ht' : t' = t
      · subst ht'
        rw [bset_self] at hb'
        injection hb' with hrr
        subst hrr
        rw [hget_hset_self]
        simp
      · rw [bset_other _ _ _ _ ht'] at hb'
        have hrs : (em.heap r').isSome := a1 t' r' hb'
        have hr : r' ≠ em.nextRef := by
          intro hc; subst hc; rw [hnone] at hrs; simp at hrs
        rw [hget_hset_other _ _ _ _ hr, hget_hset_other _ _ _ _ hr]
        exact ne t' r' hb'

/-- Setting the `warned` flag of a live array (lines 114-121) keeps its
events and so the invariant. -/
theorem inv_warnset (t : String) (r2 : Nat) (em : Emitter) (hb : em.byType t = some r2)
    (hi : EmInv em) :
    EmInv { em with heap := hset em.heap r2 ⟨(hget em.heap r2).events, true⟩ } := by
  obtain ⟨⟨a1, a2, a3⟩, ne⟩ := hi
  have hrs : (em.heap r2).isSome := a1 t r2 hb
  dsimp only [EmInv, Wf, NoEmpty, mkE_byType, mkE_heap, mkE_nextRef, mkE_maxL]
  refine ⟨⟨?_, ?_, a3⟩, ?_⟩
  · intro t' r' hb'
    by_cases hr : r' = r2
    · subst hr; rw [hset_self]; rfl
    · rw [hset_other _ _ _ _ hr]; exact a1 t' r' hb'
  · intro r' hge
    by_cases hr : r' = r2
    · subst hr; rw [a2 r' hge] at hrs; simp at hrs
    · rw [hset_other _ _ _ _ hr]; exact a2 r' hge
  · intro t' r' hb'
    by_cases hr : r' = r2
    · subst hr; rw [hget_hset_self]; exact ne t' r' hb'
    · rw [hget_hset_other _ _ _ _ hr]; exact ne t' r' hb'

/-- Main preservation lemma: every step of the interpreter — any act
sequence, registration, emit, or dispatch-loop continuation, with
arbitrary re-entrant handler behaviour — preserves well-formedness and
the no-empty-sequence invariant, in both normal and throwing outcomes. -/
theorem exec_inv (env : Env) : ∀ (fuel : Nat) (job : Job) (w : Wst), EmInv w.em →
    ResInv (exec env fuel job w) := by
  intro fuel
  induction fuel with
  | zero => intro job w _; exact trivial
  | succ f ih =>
    intro job w hw
    match job with
    | .acts [] => exact hw
    | .acts (a :: rest) =>
      rw [exec_acts_cons]
      have hcont : ∀ r : Res, ResInv r →
          ResInv (match r with | .ok w' => exec env f (.acts rest) w' | r' => r') := by
        intro r hr
        cases r with
        | ok w' => exact ih (.acts rest) w' hr
        | exn w' => exact hr
        | oot => exact trivial
      match a with
      | .on t h sc => exact hcont _ (ih (.addL t h sc false) w hw)
      | .once t h sc => exact hcont _ (ih (.addL t h sc true) w hw)
      | .removeListener t h =>
        exact hcont (.ok { w with em := removeListenerF t h w.em })
          (inv_removeListenerF t h w.em hw)
      | .removeAllListeners ot =>
        exact hcont (.ok { w with em := removeAllF ot w.em }) (inv_removeAllF ot w.em hw)
      | .emit t args => exact hcont _ (ih (.emitJ t (.arr args)) w hw)
      | .setMaxListeners n =>
        exact hcont (.ok { w with em := setMaxListenersF n w.em }) hw
      | .throw => exact hcont (.exn w) hw
    | .addL t h sc o =>
      rw [exec_addL]
      have h2 : EmInv (addPush t h sc o w.em) := inv_addPush t h sc o w.em hw
      have hr := ih (.emitJ "newListener" (.strv t)) { w with em := addPush t h sc o w.em } h2
      cases hre : exec env f (.emitJ "newListener" (.strv t)) { w with em := addPush t h sc o w.em } with
      | oot => exact trivial
      | exn w1 => rw [hre] at hr; exact hr
      | ok w1 =>
        rw [hre] at hr
        dsimp only
        by_cases hml : w1.em.maxL ≠ 0
        · rw [if_pos hml]
          cases hbt : w1.em.byType t with
          | none => exact hr
          | some r2 =>
            dsimp only
            by_cases hcond : (hget w1.em.heap r2).warned = false ∧
                w1.em.maxL < (hget w1.em.heap r2).events.length
            · rw [if_pos hcond]
              exact inv_warnset t r2 w1.em hbt hr
            · rw [if_neg hcond]; exact hr
        · rw [if_neg hml]; exact hr
    | .emitJ t a =>
      rw [exec_emitJ]
      cases hbt : w.em.byType t with
      | none => exact hw
      | some r => exact ih (.loop r a 0) w hw
    | .loop r a i =>
      rw [exec_loop]
      by_cases hlt : i < (hget w.em.heap r).events.length
      · rw [dif_pos hlt]
        dsimp only
        cases hat : argsToList a with
        | none => exact hw
        | some l =>
          dsimp only
          have hr := ih (.acts (env ((hget w.em.heap r).events.get ⟨i, hlt⟩).listener))
            { w with trace := w.trace ++ [(((hget w.em.heap r).events.get ⟨i, hlt⟩).listener, l)] } hw
          cases hre : exec env f (.acts (env ((hget w.em.heap r).events.get ⟨i, hlt⟩).listener))
              { w with trace := w.trace ++ [(((hget w.em.heap r).events.get ⟨i, hlt⟩).listener, l)] } with
          | oot => exact trivial
          | exn w2 => rw [hre] at hr; exact hr
          | ok w2 =>
            rw [hre] at hr
            dsimp only
            by_cases ho : ((hget w.em.heap r).events.get ⟨i, hlt⟩).once = true
            · rw [if_pos ho]
              exact ih (.loop r a i) _
                (inv_removeListenerF ((hget w.em.heap r).events.get ⟨i, hlt⟩).type
                  ((hget w.em.heap r).events.get ⟨i, hlt⟩).listener w2.em hr)
            · rw [if_neg ho]
              exact ih (.loop r a (i+1)) w2 hr
      · rw [dif_neg hlt]; exact hw

/-- C9: the no-empty-sequence invariant is preserved by every sequence of
API operations (`on`, `once`, `removeListener`, `removeAllListeners`,
`emit`, `setMaxListeners`), with arbitrary re-entrant handler behaviour,
whether the run completes normally or unwinds with an exception: whenever
an operation empties a type's sequence, the entry is deleted within that
same operation, so no reachable state maps a type key to an empty
sequence. -/
theorem C9_theorem (env : Env) (fuel : Nat) (acts : List Act) (w : Wst) (hi : EmInv w.em) :
    ResNoEmpty (runActs env fuel acts w) := by
  have h := exec_inv env fuel (.acts acts) w hi
  cases hre : runActs env fuel acts w with
  | ok w' =>
    rw [show exec env fuel (Job.acts acts) w = runActs env fuel acts w from rfl, hre] at h
    exact h.2
  | exn w' =>
    rw [show exec env fuel (Job.acts acts) w = runActs env fuel acts w from rfl, hre] at h
    exact h.2
  | oot => exact trivial

/-- C9 witness: the invariant theorem applied to a concrete mixed workload
from the fresh emitter (registration, one-shot firing that empties and
deletes an entry, and a full clear). -/
theorem C9_witness :
    ResNoEmpty (runActs envA 40
      [.on "e" 0 none, .on "a" 8 none, .once "e" 5 none, .emit "e" [],
       .removeAllListeners (some "a"), .removeAllListeners none] w0) :=
  C9_theorem envA 40
    [.on "e" 0 none, .on "a" 8 none, .once "e" 5 none, .emit "e" [],
     .removeAllListeners (some "a"), .removeAllListeners none] w0
    ⟨⟨fun _ _ hc => Option.noConfusion hc, fun _ _ => rfl,
      fun _ _ _ hc _ => Option.noConfusion hc⟩, fun _ _ hc => Option.noConfusion hc⟩
